import Mathlib

/-!
Shallow embedding of govulncheck's text report renderer
(`internal/scan/text.go` of `tjgurwara99/vuln`), together with
spec-modelled helpers for parts of the repository whose sources are not
included (the findings grouping, counters, validation and color-constant
helpers live in sibling files that are not part of the provided slice).

Strings are modelled as `List Char`; machine output is modelled as a list
of tokens, each token being the argument of one underlying write.  A token
is tagged `text` when it is report wording and `code` when it is an ANSI
style/reset escape emitted by the styling overlay; the tag is ghost
information used only to state the styling-overlay properties (the bytes
written are the payload either way).
-/

namespace GovulnText

abbrev Str := List Char

def str (s : String) : Str := s.data

/-- One write to the output sink: report wording or an ANSI style code. -/
inductive Tok where
  | text (s : Str)
  | code (s : Str)
deriving DecidableEq

/-- The bytes a token sequence writes to the sink. -/
def bytesOf (ts : List Tok) : Str :=
  (ts.map fun t => match t with | .text s => s | .code s => s).flatten

/-- Drop the ANSI style/reset codes, keeping the report wording tokens. -/
def stripToks (ts : List Tok) : List Tok :=
  ts.filter fun t => match t with | .text _ => true | .code _ => false

/-- The report wording bytes, with all ANSI style/reset codes removed. -/
def textOnly (ts : List Tok) : Str := bytesOf (stripToks ts)

/-! ### ANSI codes and styles

Modelled from the spec: designated semantic categories map to fixed
color/weight codes; a reset code follows every styled span (the constant
definitions live in a color helper file outside the provided sources). -/

def colorReset : Str := str "\x1b[0m"

def colorBold : Str := str "\x1b[1m"

def colorFaint : Str := str "\x1b[2m"

def fgRed : Str := str "\x1b[31m"

def fgGreen : Str := str "\x1b[32m"

def fgYellow : Str := str "\x1b[33m"

def fgBlue : Str := str "\x1b[34m"

def fgCyan : Str := str "\x1b[36m"

/-- The tagged style values of text.go (`defaultStyle = style(iota)` …). -/
inductive Style where
  | defaultStyle
  | goStyle
  | scannerStyle
  | osvCalledStyle
  | osvImportedStyle
  | detailsStyle
  | sectionStyle
  | keyStyle
  | valueStyle
deriving DecidableEq

/-- `h.print(values...)`: each value is one write of report wording. -/
def printT (vs : List Str) : List Tok := vs.map Tok.text

/-- The writes performed by the `showColor` switch of `TextHandler.style`:
one write per color constant, exactly as `h.print(colorBold, fgRed)`
performs two writes. -/
def codesFor : Style → List Tok
  | .defaultStyle => [Tok.code colorReset]
  | .goStyle => [Tok.code colorBold]
  | .scannerStyle => [Tok.code colorBold]
  | .osvCalledStyle => [Tok.code colorBold, Tok.code fgRed]
  | .osvImportedStyle => [Tok.code colorBold, Tok.code fgGreen]
  | .detailsStyle => [Tok.code colorFaint]
  | .sectionStyle => [Tok.code fgBlue]
  | .keyStyle => [Tok.code colorFaint, Tok.code fgYellow]
  | .valueStyle => [Tok.code colorBold, Tok.code fgCyan]

/-- `TextHandler.style`: when color is on, emit the style's codes, then the
values, then a reset code when at least one value was given. -/
def styleT (showColor : Bool) (st : Style) (vs : List Str) : List Tok :=
  (if showColor then codesFor st else [])
    ++ printT vs
    ++ (if showColor ∧ vs ≠ [] then [Tok.code colorReset] else [])

/-! ### Data model -/

/-- One stack frame of a finding's call trace.  The trace is stored with
the vulnerable (innermost) frame first: the full-trace renderer walks the
list backwards to display outermost-first.  `pos` is the rendered source
position when known (`posToString` of the producer). -/
structure Frame where
  module : Str
  package : Str
  symbol : Str
  version : Str
  pos : Option Str
deriving DecidableEq

/-- One vulnerability-metadata record (`osv.Entry` projection): identity,
summary/details text, reference URL and per-platform applicability tags. -/
structure OSVEntry where
  id : Str
  summary : Str
  details : Str
  url : Str
  platformList : List Str
deriving DecidableEq

/-- One `govulncheck.Finding` as submitted by the producer. -/
structure GFinding where
  osvID : Str
  fixedVersion : Str
  trace : List Frame
deriving DecidableEq

/-- A `findingSummary`: the finding together with its resolved metadata and
the precomputed compact one-line trace description. -/
structure FS where
  osvID : Str
  fixedVersion : Str
  trace : List Frame
  compact : Str
  osv : OSVEntry
deriving DecidableEq

def defaultFrame : Frame := ⟨[], [], [], [], none⟩

def emptyOSV : OSVEntry := ⟨[], [], [], [], []⟩

def defaultFS : FS := ⟨[], [], [], [], emptyOSV⟩

/-- Modelled from the spec: the standard-library pseudo-module is a
distinguished module identity distinct from any real module path
(`internal.GoStdModulePath`, whose defining file is not in the slice). -/
def goStdModulePath : Str := str "stdlib"

/-- The module identity of a finding: the module of its first stored trace
frame (the frame the renderer calls `lastFrame`). -/
def FS.modKey (f : FS) : Str := (f.trace.headD defaultFrame).module

/-- Modelled from the spec: a vulnerability group is "called" iff any
finding in it carries a non-empty compact trace (`isCalled` lives in the
findings helper file outside the slice). -/
def isCalled (fs : List FS) : Bool := fs.any fun f => !f.compact.isEmpty

/-- The distinct keys of a list in first-seen order. -/
def firstSeen (keys : List Str) : List Str :=
  keys.foldl (fun acc k => if k ∈ acc then acc else acc ++ [k]) []

/-- Modelled from the spec: group all findings by vulnerability identity,
preserving the order in which each distinct identity was first observed
(`groupByVuln` lives outside the slice). -/
def groupByVuln (fs : List FS) : List (List FS) :=
  (firstSeen (fs.map FS.osvID)).map fun k => fs.filter fun f => decide (f.osvID = k)

/-- Modelled from the spec: within a vulnerability group, sub-partition by
module identity with the same first-seen-order rule (`groupByModule` lives
outside the slice). -/
def groupByModule (fs : List FS) : List (List FS) :=
  (firstSeen (fs.map FS.modKey)).map fun k => fs.filter fun f => decide (f.modKey = k)

/-- Modelled from the spec: the one-line compact trace description
(`caller calls symbol`); a finding whose trace carries no call stack gets
an empty compact description and is classified imported-only
(`compactTrace` lives outside the slice). -/
def compactTrace (f : GFinding) : Str :=
  match f.trace with
  | t0 :: t1 :: _ => t1.symbol ++ str " calls " ++ t0.symbol
  | _ => []

/-- Modelled from the spec: `newFindingSummary` pairs the finding with its
precomputed compact trace; the metadata reference is resolved later by the
normalizer. -/
def newFindingSummary (f : GFinding) : FS :=
  { osvID := f.osvID
    fixedVersion := f.fixedVersion
    trace := f.trace
    compact := compactTrace f
    osv := emptyOSV }

/-- Modelled from the spec: resolve each finding's metadata record by
identity, synthesizing a minimal placeholder when the producer omitted it
(`fixupFindings` lives outside the slice). -/
def fixupFindings (osvs : List OSVEntry) (fs : List FS) : List FS :=
  fs.map fun f =>
    { f with osv := ((osvs.find? fun o => decide (o.id = f.osvID)).getD
        { id := f.osvID, summary := [], details := [], url := [], platformList := [] }) }

/-- Modelled from the spec: formats a found/fixed version; an absent
version yields the empty string, and text.go's caller renders the `N/A`
fallback (the `moduleVersionString` helper lives outside the slice; its
stdlib go-tag rewriting is not described by the spec and is immaterial
here, so the version text passes through). -/
def moduleVersionString (_modPath v : Str) : Str := v

/-- Modelled from the spec: the per-platform applicability tags of the
metadata record (the `platforms` helper lives outside the slice). -/
def platforms (_mod : Str) (o : OSVEntry) : List Str := o.platformList

/-- Reasons a submitted finding is rejected at ingestion. -/
inductive IngestErr where
  | missingModule
  | missingSymbol
deriving DecidableEq

/-- Modelled from the spec: reject a finding that lacks an associated
module path, or any of whose trace frames lacks a symbol
(`validateFindings` lives outside the slice). -/
def validateFindings (f : GFinding) : Option IngestErr :=
  if (f.trace.headD defaultFrame).module = [] then some IngestErr.missingModule
  else if f.trace.any (fun fr => fr.symbol.isEmpty) then some IngestErr.missingSymbol
  else none

/-- Summary counters, modelled from the spec: total called-vulnerability
count, count of distinct called modules excluding the standard-library
pseudo-module, and whether the standard library is among the called
groups (`counters` lives outside the slice). -/
structure Counters where
  VulnerabilitiesCalled : Nat
  ModulesCalled : Nat
  StdlibCalled : Bool
deriving DecidableEq

/-- Modelled from the spec: derive the summary counters from the findings
that carry a non-empty compact trace. -/
def counters (fs : List FS) : Counters :=
  let called := fs.filter fun f => !f.compact.isEmpty
  { VulnerabilitiesCalled := (firstSeen (called.map FS.osvID)).length
    ModulesCalled :=
      (firstSeen (((called.filter fun f => decide (f.modKey ≠ goStdModulePath))).map FS.modKey)).length
    StdlibCalled := called.any fun f => decide (f.modKey = goStdModulePath) }

def strOfNat (n : Nat) : Str := (toString n).data

/-- The `choose` helper of text.go, specialized to strings. -/
def choose (b : Bool) (yes no : Str) : Str := if b then yes else no

/-! ### Word splitting and line wrapping -/

/-- Split a character list at every separator character (the pieces between
separators, in order; empty pieces are kept). -/
def splitP (p : Char → Bool) : Str → List Str
  | [] => [[]]
  | c :: cs =>
    if p c then [] :: splitP p cs
    else (c :: (splitP p cs).headD []) :: (splitP p cs).tail

/-- `strings.Fields`: the whitespace-delimited words of a string. -/
def goFields (s : Str) : List Str :=
  (splitP (fun c => c.isWhitespace) s).filter fun w => !w.isEmpty

/-- The lines of an output string (pieces between newline characters). -/
def linesOf (s : Str) : List Str := splitP (fun c => decide (c = '\n')) s

/-- The sequence of `h.print` arguments `TextHandler.wrap` issues, in
order, translated statement-for-statement from text.go: for each word,
first a line break when the line is non-empty and would overflow, then the
indent (line start) or a single separating space, then the word.  `w`
mirrors the running width counter (the character counts returned by
`h.print`, which equal the argument lengths while no write has failed;
after a write failure nothing is written at all, so the counter no longer
influences observable output). -/
def wrapPieces (indent : Str) (maxWidth : Nat) : List Str → Nat → List Str
  | [], _ => []
  | f :: fs, w =>
    if 0 < w ∧ w + f.length + 1 > maxWidth then
      str "\n" :: indent :: f :: wrapPieces indent maxWidth fs (indent.length + f.length)
    else if w = 0 then
      indent :: f :: wrapPieces indent maxWidth fs (indent.length + f.length)
    else
      str " " :: f :: wrapPieces indent maxWidth fs (w + 1 + f.length)

/-- The writes of `TextHandler.wrap indent s maxWidth`. -/
def wrapToks (indent s : Str) (maxWidth : Nat) : List Tok :=
  printT (wrapPieces indent maxWidth (goFields s) 0)

/-- The bytes `TextHandler.wrap` emits. -/
def wrapOut (indent s : Str) (maxWidth : Nat) : Str :=
  (wrapPieces indent maxWidth (goFields s) 0).flatten

/-! ### The render pipeline (text.go, translated function by function) -/

/-- `TextHandler.traces`: one entry body (the part after the skip test),
with `i` the finding's 0-based position in the module sub-group. -/
def traceEntryToks (_c t : Bool) (i : Nat) (entry : FS) : List Tok :=
  printT [str "      #", strOfNat (i + 1), str ": "]
    ++ (if !t then printT [entry.compact, str "\n"]
        else printT [str "for function ", (entry.trace.headD defaultFrame).symbol, str "\n"]
          ++ (entry.trace.reverse.map fun fr =>
                printT [str "        "]
                  ++ (match fr.pos with
                      | some p => printT [p, str ": "]
                      | none => [])
                  ++ printT [fr.symbol, str "\n"]).flatten)

/-- `TextHandler.traces`: walk the sub-group's findings with their
positions, skipping findings with an empty compact trace, printing the
header before the first one rendered. -/
def tracesToks (c t : Bool) (traces : List FS) : List Tok :=
  (traces.foldl
    (fun s entry =>
      if entry.compact.isEmpty then (s.1, s.2.1 + 1, s.2.2)
      else
        (s.1 ++ (if s.2.2 then styleT c Style.keyStyle [str "    Example traces found:\n"] else [])
            ++ traceEntryToks c t s.2.1 entry,
         s.2.1 + 1, false))
    (([] : List Tok), 0, true)).1

/-- The `Platforms:` block of `TextHandler.vulnerability`. -/
def platformsToks (c : Bool) (mod : Str) (f0 : FS) : List Tok :=
  let ps := platforms mod f0.osv
  if ps.length > 0 then
    styleT c Style.keyStyle [str "    Platforms: "]
      ++ (ps.foldl
            (fun s p => (s.1 ++ (if s.2 > 0 then printT [str ", "] else []) ++ printT [p], s.2 + 1))
            (([] : List Tok), 0)).1
      ++ printT [str "\n"]
  else []

/-- The per-module body of `TextHandler.vulnerability` (lines 179-220):
the representative frame is `module[0].Trace[0]`, the last frame of the
call chain of the first finding of the sub-group (the source names it
`lastFrame`); its module, package and version, and the first finding's
fixed version, source the whole sub-group. -/
def modSectionToks (c t : Bool) (module : List FS) : List Tok :=
  let lastFrame := ((module.headD defaultFS).trace).headD defaultFrame
  let mod := lastFrame.module
  let path := if lastFrame.module = goStdModulePath then lastFrame.package else lastFrame.module
  let foundVersion := moduleVersionString lastFrame.module lastFrame.version
  let fixedVersion := moduleVersionString lastFrame.module (module.headD defaultFS).fixedVersion
  printT [str "  "]
    ++ (if mod = goStdModulePath then printT [str "Standard library"]
        else styleT c Style.keyStyle [str "Module: "] ++ printT [mod])
    ++ printT [str "\n    "]
    ++ styleT c Style.keyStyle [str "Found in: "]
    ++ printT [path, str "@", foundVersion, str "\n    "]
    ++ styleT c Style.keyStyle [str "Fixed in: "]
    ++ (if fixedVersion ≠ [] then printT [path, str "@", fixedVersion] else printT [str "N/A"])
    ++ printT [str "\n"]
    ++ platformsToks c mod (module.headD defaultFS)
    ++ tracesToks c t module

/-- The header of `TextHandler.vulnerability` (lines 157-174). -/
def vulnHeaderToks (c : Bool) (index : Nat) (findings : List FS) : List Tok :=
  styleT c Style.keyStyle [str "Vulnerability"]
    ++ printT [str " #", strOfNat (index + 1), str ": "]
    ++ (if isCalled findings then styleT c Style.osvCalledStyle [(findings.headD defaultFS).osv.id]
        else styleT c Style.osvImportedStyle [(findings.headD defaultFS).osv.id])
    ++ printT [str "\n"]
    ++ styleT c Style.detailsStyle []
    ++ wrapToks (str "    ")
        (if (findings.headD defaultFS).osv.summary.isEmpty
         then (findings.headD defaultFS).osv.details
         else (findings.headD defaultFS).osv.summary) 80
    ++ styleT c Style.defaultStyle []
    ++ printT [str "\n"]
    ++ styleT c Style.keyStyle [str "  More info:"]
    ++ printT [str " ", (findings.headD defaultFS).osv.url, str "\n"]

/-- `TextHandler.vulnerability`: header, then the module sub-groups with a
blank line before every sub-group but the first, then a closing blank
line. -/
def vulnerabilityToks (c t : Bool) (index : Nat) (findings : List FS) : List Tok :=
  vulnHeaderToks c index findings
    ++ ((groupByModule findings).foldl
          (fun s m => (s.1 ++ (if s.2 then [] else printT [str "\n"]) ++ modSectionToks c t m, false))
          (([] : List Tok), true)).1
    ++ printT [str "\n"]

/-- The explanatory boilerplate introducing the informational section. -/
def informationalIntroToks (c : Bool) (unCalled : Nat) : List Tok :=
  styleT c Style.sectionStyle [str "=== Informational ===\n"]
    ++ printT [str "\nFound ", strOfNat unCalled]
    ++ printT [choose (decide (unCalled = 1)) (str " vulnerability") (str " vulnerabilities")]
    ++ printT [str " in packages that you import, but there are no call\nstacks leading to the use of "]
    ++ printT [choose (decide (unCalled = 1)) (str "this vulnerability") (str "these vulnerabilities")]
    ++ printT [str ". You may not need to\ntake any action. See https://pkg.go.dev/golang.org/x/vuln/cmd/govulncheck\nfor details.\n\n"]

/-- `TextHandler.byVulnerability`: render the called groups with a running
counter, then, when any group is un-called, the informational boilerplate
followed by the un-called groups with an independent counter. -/
def byVulnToks (c t : Bool) (fs : List FS) : List Tok :=
  let byVuln := groupByVuln fs
  let calledPart := byVuln.foldl
    (fun s g => if isCalled g then (s.1 ++ vulnerabilityToks c t s.2 g, s.2 + 1) else s)
    (([] : List Tok), 0)
  let unCalled := byVuln.length - calledPart.2
  calledPart.1
    ++ (if unCalled = 0 then []
        else informationalIntroToks c unCalled
          ++ (byVuln.foldl
                (fun s g => if !isCalled g then (s.1 ++ vulnerabilityToks c t s.2 g, s.2 + 1) else s)
                (([] : List Tok), 0)).1)

/-- `TextHandler.summary`. -/
def summaryToks (c : Bool) (fs : List FS) : List Tok :=
  let cnt := counters fs
  if cnt.VulnerabilitiesCalled = 0 then printT [str "No vulnerabilities found.\n"]
  else
    printT [str "Your code is affected by "]
      ++ styleT c Style.valueStyle [strOfNat cnt.VulnerabilitiesCalled]
      ++ printT [choose (decide (cnt.VulnerabilitiesCalled = 1)) (str " vulnerability") (str " vulnerabilities")]
      ++ printT [str " from"]
      ++ (if cnt.ModulesCalled > 0 then
            printT [str " "]
              ++ styleT c Style.valueStyle [strOfNat cnt.ModulesCalled]
              ++ printT [choose (decide (cnt.ModulesCalled = 1)) (str " module") (str " modules")]
          else [])
      ++ (if cnt.StdlibCalled then
            (if cnt.ModulesCalled ≠ 0 then printT [str " and"] else [])
              ++ printT [str " the Go standard library"]
          else [])
      ++ printT [str ".\n"]

/-- The writes issued by `TextHandler.Flush` (render pipeline plus the
feedback line), as a function of the two display flags and the fixed-up
findings. -/
def reportToks (c t : Bool) (fs : List FS) : List Tok :=
  byVulnToks c t fs
    ++ summaryToks c fs
    ++ printT [str "\nShare feedback at https://go.dev/s/govulncheck-feedback.\n"]

/-! ### The handler state, the output sink and its sticky error -/

/-- Errors `Flush` can return: the distinguished vulnerabilities-found
sentinel (`errVulnerabilitiesFound`), or the first write error. -/
inductive RetErr where
  | vulnerabilitiesFound
  | writeFailure (e : Nat)
deriving DecidableEq

/-- The `TextHandler` state.  The output sink is modelled by `wouts`, the
outcomes of the successive underlying writes still to come (`none` =
success; an exhausted list means every further write succeeds), plus the
accumulated tokens actually written in `out`.  `err` is the sticky first
write error. -/
structure Handler where
  osvs : List OSVEntry
  findings : List FS
  err : Option Nat
  showColor : Bool
  showTraces : Bool
  wouts : List (Option Nat)
  out : List Tok
deriving DecidableEq

/-- One value of a `h.print(values...)` call: skipped entirely when an
error is already recorded, otherwise one underlying write that either
appends the token or records the first error. -/
def writeTok (h : Handler) (t : Tok) : Handler :=
  if h.err.isSome then h
  else
    match h.wouts with
    | [] => { h with out := h.out ++ [t] }
    | none :: rest => { h with out := h.out ++ [t], wouts := rest }
    | some e :: rest => { h with err := some e, wouts := rest }

/-- A sequence of writes (the loop body of `TextHandler.print`). -/
def emit (h : Handler) (ts : List Tok) : Handler := ts.foldl writeTok h

/-- `TextHandler.OSV`: gather metadata records. -/
def Handler.osv (h : Handler) (entry : OSVEntry) : Handler :=
  { h with osvs := h.osvs ++ [entry] }

/-- `TextHandler.Finding`: validate, then gather the summary; a rejected
record leaves the handler untouched. -/
def Handler.finding (h : Handler) (f : GFinding) : Handler × Option IngestErr :=
  match validateFindings f with
  | some e => (h, some e)
  | none => ({ h with findings := h.findings ++ [newFindingSummary f] }, none)

/-- `TextHandler.Flush`: fix up the findings, render, and return the first
write error if any, else the vulnerabilities-found sentinel when a called
group exists, else no error. -/
def Handler.flush (h : Handler) : Handler × Option RetErr :=
  let fs := fixupFindings h.osvs h.findings
  let h1 := emit { h with findings := fs } (reportToks h.showColor h.showTraces fs)
  match h1.err with
  | some e => (h1, some (RetErr.writeFailure e))
  | none => if isCalled fs then (h1, some RetErr.vulnerabilitiesFound) else (h1, none)

/-! ### Spec-side definitions

The following definitions restate parts of the render pipeline the way the
specification describes them (filter the groups by calledness, number each
section independently from 1, join the module sub-sections with blank
lines, take the representative frame of a sub-group from the last call
frame of its first finding).  The refinement theorems below prove the
translated source equal to these. -/

/-- Render each element of a list with its sequential number, numbering
from `n`. -/
def numbered {α : Type} (F : Nat → α → List Tok) : Nat → List α → List Tok
  | _, [] => []
  | n, g :: l => F n g ++ numbered F (n + 1) l

/-- Join token blocks with a separator between consecutive blocks. -/
def sepJoin (sep : List Tok) : List (List Tok) → List Tok
  | [] => []
  | [x] => x
  | x :: y :: ys => x ++ sep ++ sepJoin sep (y :: ys)

/-- The called groups of the report, in first-seen order. -/
def calledGroups (fs : List FS) : List (List FS) :=
  (groupByVuln fs).filter fun g => isCalled g

/-- The un-called (imported-only) groups of the report, in first-seen
order. -/
def unCalledGroups (fs : List FS) : List (List FS) :=
  (groupByVuln fs).filter fun g => !isCalled g

/-- Spec-side section layout: the called groups numbered from 1 in
first-seen order form the primary section; when un-called groups exist
they follow the informational boilerplate, numbered independently from
1. -/
def byVulnSpec (c t : Bool) (fs : List FS) : List Tok :=
  numbered (vulnerabilityToks c t) 0 (calledGroups fs)
    ++ (if (unCalledGroups fs).length = 0 then []
        else informationalIntroToks c (unCalledGroups fs).length
          ++ numbered (vulnerabilityToks c t) 0 (unCalledGroups fs))

/-- The representative frame of a module sub-group: the last call frame
(stored first) of the sub-group's first finding. -/
def repFrame (m : List FS) : Frame := ((m.headD defaultFS).trace).headD defaultFrame

/-- Spec-side module sub-section: the whole sub-section is rendered from
the representative frame `rep` and first finding `f0` (plus the sub-group
itself for the trace list). -/
def modSectionFrom (c t : Bool) (rep : Frame) (f0 : FS) (m : List FS) : List Tok :=
  printT [str "  "]
    ++ (if rep.module = goStdModulePath then printT [str "Standard library"]
        else styleT c Style.keyStyle [str "Module: "] ++ printT [rep.module])
    ++ printT [str "\n    "]
    ++ styleT c Style.keyStyle [str "Found in: "]
    ++ printT [(if rep.module = goStdModulePath then rep.package else rep.module), str "@",
        moduleVersionString rep.module rep.version, str "\n    "]
    ++ styleT c Style.keyStyle [str "Fixed in: "]
    ++ (if moduleVersionString rep.module f0.fixedVersion ≠ [] then
          printT [(if rep.module = goStdModulePath then rep.package else rep.module), str "@",
            moduleVersionString rep.module f0.fixedVersion]
        else printT [str "N/A"])
    ++ printT [str "\n"]
    ++ platformsToks c rep.module f0
    ++ tracesToks c t m

/-- Spec-side vulnerability group rendering: the header, then the module
sub-groups (first-seen order) joined by blank lines, each rendered from
the last trace frame of its first finding, then a closing blank line. -/
def vulnerabilitySpec (c t : Bool) (index : Nat) (g : List FS) : List Tok :=
  vulnHeaderToks c index g
    ++ sepJoin (printT [str "\n"])
        ((groupByModule g).map fun m => modSectionFrom c t (repFrame m) (m.headD defaultFS) m)
    ++ printT [str "\n"]

/-- Spec-side trace listing bodies: every finding of the sub-group holds a
position; findings with an empty compact trace are skipped but still
consume their position. -/
def traceBodies (c t : Bool) : Nat → List FS → List Tok
  | _, [] => []
  | i, e :: l =>
    (if e.compact.isEmpty then [] else traceEntryToks c t i e) ++ traceBodies c t (i + 1) l

/-- Spec-side trace listing: nothing at all when no finding of the
sub-group has a compact trace, otherwise the header followed by the
numbered bodies. -/
def tracesSpec (c t : Bool) (g : List FS) : List Tok :=
  if g.all (fun f => f.compact.isEmpty) then []
  else styleT c Style.keyStyle [str "    Example traces found:\n"] ++ traceBodies c t 0 g

/-- Spec-side closing summary sentence (claim wording): the fixed sentence
for zero called vulnerabilities; otherwise the count sentence, with the
module clause omitted when the called-module count is zero, the
standard-library clause present exactly when the standard library is
called, and the connective emitted only when both clauses are present. -/
def summarySentence (k : Counters) : Str :=
  if k.VulnerabilitiesCalled = 0 then str "No vulnerabilities found.\n"
  else
    let countClause := strOfNat k.VulnerabilitiesCalled
      ++ (if k.VulnerabilitiesCalled = 1 then str " vulnerability" else str " vulnerabilities")
    let modClause := if k.ModulesCalled = 0 then []
      else str " " ++ strOfNat k.ModulesCalled
        ++ (if k.ModulesCalled = 1 then str " module" else str " modules")
    let stdClause := if k.StdlibCalled then str " the Go standard library" else []
    let connective := if k.ModulesCalled ≠ 0 ∧ k.StdlibCalled then str " and" else []
    str "Your code is affected by " ++ countClause ++ str " from"
      ++ modClause ++ connective ++ stdClause ++ str ".\n"

/-! ### Normal form of the wrap output, used to prove the wrap claims -/

/-- Words of one line joined by single spaces. -/
def joinSp : List Str → Str
  | [] => []
  | [w] => w
  | w :: x :: ws => w ++ ' ' :: joinSp (x :: ws)

/-- One emitted line: the indent followed by its words. -/
def renderLine (indent : Str) (chunk : List Str) : Str := indent ++ joinSp chunk

/-- The emitted lines joined by newlines. -/
def renderChunks (indent : Str) : List (List Str) → Str
  | [] => []
  | [ch] => renderLine indent ch
  | ch :: d :: cs => renderLine indent ch ++ '\n' :: renderChunks indent (d :: cs)

/-- The partition of the words into lines that `wrap` produces: a word
starts a new line when appending it (with its separating space) would push
the running width past `mw`. -/
def chunkFields (indent : Str) (mw : Nat) : List Str → Nat → List Str → List (List Str)
  | [], _, cur => [cur]
  | f :: fs, w, cur =>
    if w + f.length + 1 > mw then cur :: chunkFields indent mw fs (indent.length + f.length) [f]
    else chunkFields indent mw fs (w + 1 + f.length) (cur ++ [f])

/-- The line partition of a whole word list (the first word always starts
the first line). -/
def chunkList (indent : Str) (mw : Nat) : List Str → List (List Str)
  | [] => []
  | f :: fs => chunkFields indent mw fs (indent.length + f.length) [f]

/-- The representative path of a module sub-group: for the
standard-library pseudo-module the affected package path, otherwise the
module path. -/
def repPath (m : List FS) : Str :=
  if (repFrame m).module = goStdModulePath then (repFrame m).package else (repFrame m).module

/-- Claim-side `Found in:` line content: always `path@version` (even when
the found version is absent, in which case the text ends in `@`). -/
def foundLineText (m : List FS) : Str :=
  str "Found in: " ++ repPath m ++ str "@"
    ++ moduleVersionString (repFrame m).module (repFrame m).version

/-- Claim-side `Fixed in:` line content: `N/A` when the fixed version is
absent, otherwise `path@version`. -/
def fixedLineText (m : List FS) : Str :=
  str "Fixed in: "
    ++ (if moduleVersionString (repFrame m).module (m.headD defaultFS).fixedVersion = [] then
          str "N/A"
        else repPath m ++ str "@"
          ++ moduleVersionString (repFrame m).module (m.headD defaultFS).fixedVersion)

/-! ### Concrete fixtures used by the witness theorems -/

/-- A finding summary whose compact trace is non-empty (a called finding). -/
def witnessCalledFS : FS :=
  { osvID := str "GO-0000-0001"
    fixedVersion := str "v0.1.3"
    trace := [⟨str "golang.org/vmod", str "vmod", str "vmod.Vuln", str "v0.0.1", none⟩]
    compact := str "main.main calls vmod.Vuln"
    osv := emptyOSV }

/-- A fresh handler holding one called finding, writing to a sink that
never fails. -/
def hCalled : Handler :=
  { osvs := [], findings := [witnessCalledFS], err := none,
    showColor := false, showTraces := false, wouts := [], out := [] }

/-- A fresh empty handler whose first underlying write fails with error
code 7. -/
def hFailing : Handler :=
  { osvs := [], findings := [], err := none,
    showColor := false, showTraces := false, wouts := [some 7], out := [] }

/-- A handler that has already recorded write error 5. -/
def hErrSet : Handler :=
  { osvs := [], findings := [], err := some 5,
    showColor := false, showTraces := false, wouts := [], out := [] }

/-- A fresh empty handler whose first underlying write fails with error
code 5. -/
def hFailing5 : Handler :=
  { osvs := [], findings := [], err := none,
    showColor := false, showTraces := false, wouts := [some 5], out := [] }

/-- A fresh handler with no findings and a reliable sink. -/
def hEmpty : Handler :=
  { osvs := [], findings := [], err := none,
    showColor := false, showTraces := false, wouts := [], out := [] }

/-- A finding with an empty trace, hence no associated module path. -/
def badFinding : GFinding := { osvID := str "GO-9", fixedVersion := [], trace := [] }

/-- A valid finding: a module path and a symbol on every frame. -/
def goodFinding : GFinding :=
  { osvID := str "GO-9", fixedVersion := [],
    trace := [⟨str "golang.org/vmod", str "vmod", str "vmod.Vuln", str "v0.0.1", none⟩] }

/-! ## Lemmas about tokens and bytes -/

@[simp]
theorem stripToks_nil : stripToks [] = [] := rfl

@[simp]
theorem stripToks_append (a b : List Tok) : stripToks (a ++ b) = stripToks a ++ stripToks b := by
  simp [stripToks]

@[simp]
theorem stripToks_printT (vs : List Str) : stripToks (printT vs) = printT vs := by
  induction vs with
  | nil => rfl
  | cons v vs ih => simpa [printT, stripToks] using ih

@[simp]
theorem stripToks_code (s : Str) (ts : List Tok) :
    stripToks (Tok.code s :: ts) = stripToks ts := rfl

theorem stripToks_codesFor (st : Style) : stripToks (codesFor st) = [] := by
  cases st <;> rfl

@[simp]
theorem stripToks_styleT (c : Bool) (st : Style) (vs : List Str) :
    stripToks (styleT c st vs) = printT vs := by
  unfold styleT
  cases c <;> simp [stripToks_codesFor] <;> split <;> simp

@[simp]
theorem bytesOf_nil : bytesOf [] = [] := rfl

@[simp]
theorem bytesOf_append (a b : List Tok) : bytesOf (a ++ b) = bytesOf a ++ bytesOf b := by
  simp [bytesOf]

@[simp]
theorem bytesOf_printT (vs : List Str) : bytesOf (printT vs) = vs.flatten := by
  induction vs with
  | nil => rfl
  | cons v vs ih => simpa [printT, bytesOf] using ih

@[simp]
theorem textOnly_nil : textOnly [] = [] := rfl

@[simp]
theorem textOnly_append (a b : List Tok) : textOnly (a ++ b) = textOnly a ++ textOnly b := by
  simp [textOnly]

@[simp]
theorem textOnly_printT (vs : List Str) : textOnly (printT vs) = vs.flatten := by
  simp [textOnly]

@[simp]
theorem textOnly_styleT (c : Bool) (st : Style) (vs : List Str) :
    textOnly (styleT c st vs) = vs.flatten := by
  simp [textOnly]

/-! ## Lemmas about character splitting -/

theorem splitP_ne_nil (p : Char → Bool) (l : Str) : splitP p l ≠ [] := by
  cases l with
  | nil => simp [splitP]
  | cons c cs => simp only [splitP]; split <;> simp

theorem splitP_cons_sep (p : Char → Bool) {c : Char} (hc : p c = true) (l : Str) :
    splitP p (c :: l) = [] :: splitP p l := by
  simp [splitP, hc]

theorem splitP_cons_not (p : Char → Bool) {c : Char} (hc : p c = false) (l : Str) :
    splitP p (c :: l) = (c :: (splitP p l).headD []) :: (splitP p l).tail := by
  simp [splitP, hc]

theorem splitP_clean (p : Char → Bool) {w : Str} (h : ∀ c ∈ w, p c = false) :
    splitP p w = [w] := by
  induction w with
  | nil => rfl
  | cons c cs ih =>
    rw [splitP_cons_not p (h c (by simp))]
    rw [ih fun x hx => h x (by simp [hx])]
    rfl

theorem splitP_append_clean (p : Char → Bool) {w : Str} (h : ∀ c ∈ w, p c = false) (l : Str) :
    splitP p (w ++ l) = (w ++ (splitP p l).headD []) :: (splitP p l).tail := by
  induction w with
  | nil =>
    simp only [List.nil_append]
    cases hs : splitP p l with
    | nil => exact absurd hs (splitP_ne_nil p l)
    | cons a as => rfl
  | cons c cs ih =>
    rw [List.cons_append, splitP_cons_not p (h c (by simp)),
      ih fun x hx => h x (by simp [hx])]
    simp

theorem mem_splitP (p : Char → Bool) {l x : Str} (hx : x ∈ splitP p l) :
    ∀ c ∈ x, p c = false := by
  induction l generalizing x with
  | nil =>
    simp only [splitP, List.mem_singleton] at hx
    subst hx; simp
  | cons a as ih =>
    by_cases ha : p a
    · rw [splitP_cons_sep p ha] at hx
      rcases List.mem_cons.mp hx with rfl | hx
      · simp
      · exact ih hx
    · rw [splitP_cons_not p (by simpa using ha)] at hx
      rcases List.mem_cons.mp hx with rfl | hx
      · intro c hc
        rcases List.mem_cons.mp hc with rfl | hc
        · simpa using ha
        · have hmem : (splitP p as).headD [] ∈ splitP p as := by
            cases hs : splitP p as with
            | nil => exact absurd hs (splitP_ne_nil p as)
            | cons b bs => simp
          exact ih hmem c hc
      · have hmem : x ∈ splitP p as := by
          cases hs : splitP p as with
          | nil => exact absurd hs (splitP_ne_nil p as)
          | cons b bs =>
            rw [hs] at hx
            simp only [List.tail_cons] at hx
            simp [hs, hx]
        exact ih hmem

/-! ## Lemmas about `goFields` -/

@[simp]
theorem goFields_nil : goFields [] = [] := rfl

theorem goFields_cons_ws {c : Char} (hc : c.isWhitespace = true) (l : Str) :
    goFields (c :: l) = goFields l := by
  simp [goFields, splitP_cons_sep _ hc]

theorem goFields_ws_prepend {ws : Str} (h : ∀ c ∈ ws, c.isWhitespace = true) (l : Str) :
    goFields (ws ++ l) = goFields l := by
  induction ws with
  | nil => rfl
  | cons c cs ih =>
    rw [List.cons_append, goFields_cons_ws (h c (by simp))]
    exact ih fun x hx => h x (by simp [hx])

theorem goFields_clean {w : Str} (hw : w ≠ []) (h : ∀ c ∈ w, c.isWhitespace = false) :
    goFields w = [w] := by
  simp [goFields, splitP_clean _ h, hw]

theorem goFields_word_sep {w : Str} {c : Char} (hw : w ≠ []) (h : ∀ x ∈ w, x.isWhitespace = false)
    (hc : c.isWhitespace = true) (l : Str) : goFields (w ++ c :: l) = w :: goFields l := by
  unfold goFields
  rw [splitP_append_clean _ h, splitP_cons_sep _ hc]
  simp [hw]

theorem mem_goFields {s x : Str} (hx : x ∈ goFields s) :
    x ≠ [] ∧ ∀ c ∈ x, c.isWhitespace = false := by
  unfold goFields at hx
  rw [List.mem_filter] at hx
  exact ⟨by simpa using hx.2, mem_splitP _ hx.1⟩

/-! ## Lemmas about the wrap normal form -/

theorem joinSp_append_single {cur : List Str} (h : cur ≠ []) (f : Str) :
    joinSp (cur ++ [f]) = joinSp cur ++ ' ' :: f := by
  induction cur with
  | nil => exact absurd rfl h
  | cons a as ih =>
    cases as with
    | nil => rfl
    | cons b bs =>
      have h2 := ih (by simp)
      simp only [List.cons_append] at h2
      show a ++ ' ' :: joinSp (b :: (bs ++ [f])) = (a ++ ' ' :: joinSp (b :: bs)) ++ ' ' :: f
      rw [h2]
      simp

theorem renderLine_single (indent : Str) (f : Str) : renderLine indent [f] = indent ++ f := rfl

theorem renderLine_append_single (indent : Str) {cur : List Str} (h : cur ≠ []) (f : Str) :
    renderLine indent (cur ++ [f]) = renderLine indent cur ++ ' ' :: f := by
  unfold renderLine
  rw [joinSp_append_single h]
  simp

theorem length_renderLine_append_single (indent : Str) {cur : List Str} (h : cur ≠ []) (f : Str) :
    (renderLine indent (cur ++ [f])).length = (renderLine indent cur).length + 1 + f.length := by
  rw [renderLine_append_single indent h]
  simp only [List.length_append, List.length_cons]
  omega

theorem mem_joinSp {chunk : List Str} {c : Char} (hc : c ∈ joinSp chunk) :
    c = ' ' ∨ ∃ f ∈ chunk, c ∈ f := by
  induction chunk with
  | nil => simp [joinSp] at hc
  | cons a as ih =>
    cases as with
    | nil =>
      simp only [joinSp] at hc
      exact Or.inr ⟨a, by simp, hc⟩
    | cons b bs =>
      simp only [joinSp, List.mem_append, List.mem_cons] at hc
      rcases hc with hc | hc | hc
      · exact Or.inr ⟨a, by simp, hc⟩
      · exact Or.inl hc
      · rcases ih hc with h | ⟨f, hf, hcf⟩
        · exact Or.inl h
        · exact Or.inr ⟨f, by simp [List.mem_cons.mp hf], hcf⟩

theorem chunkFields_ne_nil (indent : Str) (mw : Nat) (fs : List Str) (w : Nat) (cur : List Str) :
    chunkFields indent mw fs w cur ≠ [] := by
  induction fs generalizing w cur with
  | nil => simp [chunkFields]
  | cons f fs ih =>
    unfold chunkFields
    split
    · simp
    · exact ih _ _

theorem renderChunks_cons (indent : Str) (ch : List Str) {rest : List (List Str)}
    (h : rest ≠ []) :
    renderChunks indent (ch :: rest) = renderLine indent ch ++ '\n' :: renderChunks indent rest := by
  cases rest with
  | nil => exact absurd rfl h
  | cons d cs => rfl

theorem chunkFields_flatten (indent : Str) (mw : Nat) (fs : List Str) (w : Nat) (cur : List Str) :
    (chunkFields indent mw fs w cur).flatten = cur ++ fs := by
  induction fs generalizing w cur with
  | nil => simp [chunkFields]
  | cons f fs ih =>
    unfold chunkFields
    split
    · simp [ih]
    · simp [ih]

theorem chunkFields_mem_ne_nil (indent : Str) (mw : Nat) {fs : List Str} {w : Nat}
    {cur : List Str} (hcur : cur ≠ []) {chunk : List Str}
    (hm : chunk ∈ chunkFields indent mw fs w cur) : chunk ≠ [] := by
  induction fs generalizing w cur with
  | nil =>
    simp only [chunkFields, List.mem_singleton] at hm
    exact hm ▸ hcur
  | cons f fs ih =>
    unfold chunkFields at hm
    split at hm
    · rcases List.mem_cons.mp hm with rfl | hm
      · exact hcur
      · exact ih (by simp) hm
    · exact ih (by simp) hm

theorem chunkFields_width (indent : Str) (mw : Nat) {fs : List Str} {w : Nat} {cur : List Str}
    (hcur : cur ≠ []) (hw : w = (renderLine indent cur).length)
    (hbound : 2 ≤ cur.length → w ≤ mw) {chunk : List Str}
    (hm : chunk ∈ chunkFields indent mw fs w cur) :
    2 ≤ chunk.length → (renderLine indent chunk).length ≤ mw := by
  induction fs generalizing w cur with
  | nil =>
    simp only [chunkFields, List.mem_singleton] at hm
    subst hm
    intro h2
    exact hw ▸ hbound h2
  | cons f fs ih =>
    unfold chunkFields at hm
    split at hm
    · rcases List.mem_cons.mp hm with rfl | hm
      · intro h2
        exact hw ▸ hbound h2
      · exact @ih _ [f] (by simp) (by simp [renderLine_single]) (by simp) hm
    · rename_i hle
      refine @ih _ (cur ++ [f]) (by simp) ?_ ?_ hm
      · rw [length_renderLine_append_single indent hcur, ← hw]
      · intro _
        omega

theorem wrapPieces_renderChunks (indent : Str) (mw : Nat) {fs : List Str} {w : Nat}
    {cur : List Str} (hw : 0 < w) (hfs : ∀ f ∈ fs, f ≠ ([] : Str)) (hcur : cur ≠ []) :
    renderChunks indent (chunkFields indent mw fs w cur)
      = renderLine indent cur ++ (wrapPieces indent mw fs w).flatten := by
  induction fs generalizing w cur with
  | nil => simp [chunkFields, wrapPieces, renderChunks]
  | cons f fs ih =>
    have hf : f ≠ ([] : Str) := hfs f (by simp)
    have hfs' : ∀ g ∈ fs, g ≠ ([] : Str) := fun g hg => hfs g (by simp [hg])
    by_cases hbreak : w + f.length + 1 > mw
    · rw [show chunkFields indent mw (f :: fs) w cur
          = cur :: chunkFields indent mw fs (indent.length + f.length) [f] by
          simp [chunkFields, hbreak]]
      rw [renderChunks_cons indent cur (chunkFields_ne_nil _ _ _ _ _)]
      rw [ih (w := indent.length + f.length)
        (by have := List.length_pos.mpr hf; omega) hfs' (by simp)]
      rw [show wrapPieces indent mw (f :: fs) w
          = str "\n" :: indent :: f :: wrapPieces indent mw fs (indent.length + f.length) by
          simp [wrapPieces, hw, hbreak]]
      simp [renderLine, joinSp, str]
    · rw [show chunkFields indent mw (f :: fs) w cur
          = chunkFields indent mw fs (w + 1 + f.length) (cur ++ [f]) by
          simp [chunkFields, hbreak]]
      rw [ih (w := w + 1 + f.length) (by omega) hfs' (by simp)]
      rw [show wrapPieces indent mw (f :: fs) w
          = str " " :: f :: wrapPieces indent mw fs (w + 1 + f.length) by
          simp only [wrapPieces]
          rw [if_neg (by omega), if_neg (by omega)]]
      rw [renderLine_append_single indent hcur]
      simp [str]

theorem wrapOut_eq_renderChunks (indent s : Str) (mw : Nat) :
    wrapOut indent s mw = renderChunks indent (chunkList indent mw (goFields s)) := by
  unfold wrapOut
  cases hg : goFields s with
  | nil => simp [wrapPieces, chunkList, renderChunks]
  | cons f fs =>
    have hf : f ≠ ([] : Str) := (mem_goFields (s := s) (x := f) (by simp [hg])).1
    have hfs : ∀ g ∈ fs, g ≠ ([] : Str) := fun g hgm =>
      (mem_goFields (s := s) (x := g) (by simp [hg, hgm])).1
    rw [show wrapPieces indent mw (f :: fs) 0
        = indent :: f :: wrapPieces indent mw fs (indent.length + f.length) by
        simp only [wrapPieces]
        rw [if_neg (by omega)]
        simp]
    unfold chunkList
    rw [wrapPieces_renderChunks indent mw (w := indent.length + f.length)
      (by have := List.length_pos.mpr hf; omega) hfs (by simp)]
    simp [renderLine, joinSp]

theorem linesOf_renderChunks {indent : Str} (hnl : ∀ c ∈ indent, ¬(c = '\n'))
    {chunks : List (List Str)} (hch : chunks ≠ [])
    (hcl : ∀ ch ∈ chunks, ∀ f ∈ ch, ∀ c ∈ f, ¬(c = '\n')) :
    linesOf (renderChunks indent chunks) = chunks.map (renderLine indent) := by
  have hline : ∀ ch ∈ chunks, ∀ c ∈ renderLine indent ch, decide (c = '\n') = false := by
    intro ch hchm c hc
    unfold renderLine at hc
    rcases List.mem_append.mp hc with hc | hc
    · exact decide_eq_false (hnl c hc)
    · rcases mem_joinSp hc with rfl | ⟨f, hf, hcf⟩
      · simp
      · exact decide_eq_false (hcl ch hchm f hf c hcf)
  induction chunks with
  | nil => exact absurd rfl hch
  | cons ch rest ih =>
    cases rest with
    | nil =>
      unfold renderChunks linesOf
      rw [splitP_clean _ (hline ch (by simp))]
      rfl
    | cons d cs =>
      rw [renderChunks_cons indent ch (by simp)]
      unfold linesOf
      rw [splitP_append_clean _ (hline ch (by simp)),
        splitP_cons_sep _ (by simp)]
      have := ih (by simp) (fun x hx => hcl x (by simp [List.mem_cons.mp hx]))
        (fun x hx => hline x (by simp [List.mem_cons.mp hx]))
      unfold linesOf at this
      rw [this]
      simp

theorem goFields_joinSp_append {chunk : List Str} (hne : chunk ≠ [])
    (hok : ∀ f ∈ chunk, f ≠ ([] : Str) ∧ ∀ c ∈ f, c.isWhitespace = false)
    {c : Char} (hc : c.isWhitespace = true) (rest : Str) :
    goFields (joinSp chunk ++ c :: rest) = chunk ++ goFields rest := by
  induction chunk with
  | nil => exact absurd rfl hne
  | cons a as ih =>
    cases as with
    | nil =>
      unfold joinSp
      rw [goFields_word_sep (hok a (by simp)).1 (hok a (by simp)).2 hc]
      rfl
    | cons b bs =>
      unfold joinSp
      rw [List.append_assoc, List.cons_append]
      rw [goFields_word_sep (hok a (by simp)).1 (hok a (by simp)).2 (by simp)]
      rw [ih (by simp) fun f hf => hok f (by simp [List.mem_cons.mp hf])]
      rfl

theorem goFields_joinSp {chunk : List Str} (hne : chunk ≠ [])
    (hok : ∀ f ∈ chunk, f ≠ ([] : Str) ∧ ∀ c ∈ f, c.isWhitespace = false) :
    goFields (joinSp chunk) = chunk := by
  induction chunk with
  | nil => exact absurd rfl hne
  | cons a as ih =>
    cases as with
    | nil =>
      unfold joinSp
      rw [goFields_clean (hok a (by simp)).1 (hok a (by simp)).2]
    | cons b bs =>
      show goFields (a ++ ' ' :: joinSp (b :: bs)) = a :: b :: bs
      rw [goFields_word_sep (hok a (by simp)).1 (hok a (by simp)).2 (by simp)]
      rw [ih (by simp) fun f hf => hok f (by simp [List.mem_cons.mp hf])]

theorem goFields_renderChunks {indent : Str} (hws : ∀ c ∈ indent, c.isWhitespace = true)
    {chunks : List (List Str)}
    (hok : ∀ ch ∈ chunks, ch ≠ [] ∧ ∀ f ∈ ch, f ≠ ([] : Str) ∧ ∀ c ∈ f, c.isWhitespace = false) :
    goFields (renderChunks indent chunks) = chunks.flatten := by
  induction chunks with
  | nil => simp [renderChunks]
  | cons ch rest ih =>
    cases rest with
    | nil =>
      unfold renderChunks renderLine
      rw [goFields_ws_prepend hws, goFields_joinSp (hok ch (by simp)).1 (hok ch (by simp)).2]
      simp
    | cons d cs =>
      rw [renderChunks_cons indent ch (by simp)]
      unfold renderLine
      rw [List.append_assoc, goFields_ws_prepend hws,
        goFields_joinSp_append (hok ch (by simp)).1 (hok ch (by simp)).2 (by simp)]
      rw [ih fun x hx => hok x (by simp [List.mem_cons.mp hx])]
      simp

theorem mem_chunkFields_flatten (indent : Str) (mw : Nat) {fs : List Str} {w : Nat}
    {cur : List Str} {chunk : List Str} (hm : chunk ∈ chunkFields indent mw fs w cur)
    {x : Str} (hx : x ∈ chunk) : x ∈ cur ++ fs := by
  rw [← chunkFields_flatten indent mw fs w cur]
  exact List.mem_flatten.mpr ⟨chunk, hm, hx⟩

/-- C4 (amended).  For every indent free of newline characters, body and
maximum width: every emitted line either fits in the width or consists of
the indent followed by a single unsplit word of the body (the overflowing
case being exactly an indent-plus-word overflow); and for every indent
consisting only of whitespace, the whitespace-delimited words of the
emitted text are exactly the whitespace-delimited words of the body. -/
theorem wrap_width_and_word_preservation (indent s : Str) (maxWidth : Nat) :
    ((∀ c ∈ indent, ¬(c = '\n')) →
      ∀ line ∈ linesOf (wrapOut indent s maxWidth),
        line.length ≤ maxWidth ∨ ∃ f ∈ goFields s, line = indent ++ f) ∧
    ((∀ c ∈ indent, c.isWhitespace = true) →
      goFields (wrapOut indent s maxWidth) = goFields s) := by
  have hfieldws : ∀ f ∈ goFields s, f ≠ ([] : Str) ∧ ∀ c ∈ f, c.isWhitespace = false :=
    fun f hf => mem_goFields hf
  constructor
  · intro hnl line hline
    cases hg : goFields s with
    | nil =>
      unfold wrapOut at hline
      rw [hg] at hline
      simp only [wrapPieces, List.flatten_nil] at hline
      have : line = ([] : Str) := by
        simpa [linesOf, splitP] using hline
      subst this
      exact Or.inl (by simp)
    | cons f fs =>
      rw [wrapOut_eq_renderChunks, hg] at hline
      have hembed : ∀ x : List Str, x ∈ chunkList indent maxWidth (f :: fs) → ∀ y ∈ x, y ∈ goFields s := by
        intro x hx y hy
        unfold chunkList at hx
        have := mem_chunkFields_flatten indent maxWidth hx hy
        rw [hg]
        simpa using this
      have hchne : ∀ x : List Str, x ∈ chunkList indent maxWidth (f :: fs) → x ≠ [] := by
        intro x hx
        unfold chunkList at hx
        exact chunkFields_mem_ne_nil indent maxWidth (by simp) hx
      rw [linesOf_renderChunks hnl (by unfold chunkList; exact chunkFields_ne_nil _ _ _ _ _)
        (by
          intro ch hch fd hfd c hc
          intro hceq
          have hws := ((hfieldws fd (hembed ch hch fd hfd)).2 c hc)
          rw [hceq] at hws
          simp at hws)] at hline
      rcases List.mem_map.mp hline with ⟨chunk, hchunk, rfl⟩
      have hne := hchne chunk hchunk
      match chunk, hne with
      | [], h => exact absurd rfl h
      | [x], _ =>
        refine Or.inr ⟨x, ?_, by simp [renderLine_single]⟩
        have := hembed [x] hchunk x (by simp)
        rwa [hg] at this
      | x :: y :: rest, _ =>
        refine Or.inl ?_
        refine @chunkFields_width indent maxWidth _ (indent.length + f.length) [f]
          (by simp) ?_ (by simp) _ (by
            unfold chunkList at hchunk
            exact hchunk) (by simp)
        rw [renderLine_single]
        simp
  · intro hws
    cases hg : goFields s with
    | nil =>
      unfold wrapOut
      rw [hg]
      simpa [wrapPieces] using hg.symm
    | cons f fs =>
      rw [wrapOut_eq_renderChunks, hg]
      have hembed : ∀ x : List Str, x ∈ chunkList indent maxWidth (f :: fs) → ∀ y ∈ x, y ∈ goFields s := by
        intro x hx y hy
        unfold chunkList at hx
        have := mem_chunkFields_flatten indent maxWidth hx hy
        rw [hg]
        simpa using this
      rw [goFields_renderChunks hws (by
        intro ch hch
        refine ⟨?_, fun fd hfd => hfieldws fd (hembed ch hch fd hfd)⟩
        unfold chunkList at hch
        exact chunkFields_mem_ne_nil indent maxWidth (by simp) hch)]
      unfold chunkList
      rw [chunkFields_flatten]
      simpa using hg.symm

/-- C4, counterexample to the claim as stated: with a two-space indent and
width 4, the single word `abcd` (length 4, not longer than the width) is
emitted on a line of length 6, so a line exceeds the width without being a
single word longer than the width; and with the non-whitespace indent `zz`
the emitted words differ from the body's words. -/
theorem wrap_claim_counterexample :
    (∃ line ∈ linesOf (wrapOut (str "  ") (str "abcd") 4),
        4 < line.length ∧ ∀ f ∈ goFields (str "abcd"), f.length ≤ 4) ∧
    goFields (wrapOut (str "zz") (str "abc") 3) ≠ goFields (str "abc") := by
  decide

/-- C4 witness: the amended theorem applied at indent two spaces, body
`ab cd`, width 5. -/
theorem wrap_width_and_word_preservation_witness :
    (∀ line ∈ linesOf (wrapOut (str "  ") (str "ab cd") 5),
        line.length ≤ 5 ∨ ∃ f ∈ goFields (str "ab cd"), line = str "  " ++ f) ∧
    goFields (wrapOut (str "  ") (str "ab cd") 5) = goFields (str "ab cd") :=
  ⟨(wrap_width_and_word_preservation (str "  ") (str "ab cd") 5).1 (by decide),
   (wrap_width_and_word_preservation (str "  ") (str "ab cd") 5).2 (by decide)⟩

/-! ## Fold-shape lemmas for the section/sub-section loops -/

theorem foldl_guard_numbered {α : Type} (p : α → Bool) (F : Nat → α → List Tok) (l : List α) :
    ∀ (acc : List Tok) (n : Nat),
      l.foldl (fun s g => if p g then (s.1 ++ F s.2 g, s.2 + 1) else s) (acc, n)
        = (acc ++ numbered F n (l.filter p), n + (l.filter p).length) := by
  induction l with
  | nil => intro acc n; simp [numbered]
  | cons g l ih =>
    intro acc n
    by_cases hp : p g
    · simp only [List.foldl_cons, if_pos hp, List.filter_cons_of_pos hp]
      rw [ih]
      simp [numbered, Nat.add_assoc, Nat.add_comm 1]
    · simp only [List.foldl_cons, if_neg hp, List.filter_cons_of_neg hp]
      exact ih acc n

theorem length_filter_split {α : Type} (p : α → Bool) (l : List α) :
    (l.filter p).length + (l.filter fun x => !p x).length = l.length := by
  induction l with
  | nil => simp
  | cons a l ih =>
    by_cases hp : p a <;> simp [List.filter_cons, hp, ← ih] <;> omega

theorem sepJoin_cons_eq_flatten (sep : List Tok) (x : List Tok) (xs : List (List Tok)) :
    sepJoin sep (x :: xs) = x ++ (xs.map fun y => sep ++ y).flatten := by
  induction xs generalizing x with
  | nil => simp [sepJoin]
  | cons y ys ih =>
    rw [show sepJoin sep (x :: y :: ys) = x ++ sep ++ sepJoin sep (y :: ys) from rfl, ih]
    simp

theorem foldl_first_flag_flatten {α : Type} (sep : List Tok) (F : α → List Tok) (l : List α) :
    ∀ acc : List Tok,
      (l.foldl (fun s m => (s.1 ++ (if s.2 then [] else sep) ++ F m, false)) (acc, false)).1
        = acc ++ (l.map fun m => sep ++ F m).flatten := by
  induction l with
  | nil => intro acc; simp
  | cons m l ih =>
    intro acc
    simp only [List.foldl_cons, if_neg Bool.false_ne_true, List.map_cons, List.flatten_cons]
    rw [ih]
    simp

theorem foldl_first_flag_sepJoin {α : Type} (sep : List Tok) (F : α → List Tok) (l : List α) :
    (l.foldl (fun s m => (s.1 ++ (if s.2 then [] else sep) ++ F m, false)) (([] : List Tok), true)).1
      = sepJoin sep (l.map F) := by
  cases l with
  | nil => simp [sepJoin]
  | cons m l =>
    simp only [List.foldl_cons, if_pos rfl]
    rw [foldl_first_flag_flatten]
    rw [List.map_cons, sepJoin_cons_eq_flatten]
    simp [Function.comp_def]

/-! ## Refinement of the section, sub-section and trace loops -/

theorem traces_foldl_noheader (c t : Bool) (l : List FS) : ∀ (acc : List Tok) (i : Nat),
    (l.foldl
      (fun s entry =>
        if entry.compact.isEmpty then (s.1, s.2.1 + 1, s.2.2)
        else
          (s.1 ++ (if s.2.2 then styleT c Style.keyStyle [str "    Example traces found:\n"] else [])
              ++ traceEntryToks c t s.2.1 entry,
           s.2.1 + 1, false))
      (acc, i, false)).1 = acc ++ traceBodies c t i l := by
  induction l with
  | nil => intro acc i; simp [traceBodies]
  | cons e l ih =>
    intro acc i
    by_cases he : e.compact.isEmpty
    · simp only [List.foldl_cons, if_pos he]
      rw [ih]
      simp [traceBodies, he]
    · simp only [List.foldl_cons, if_neg he]
      rw [ih]
      simp [traceBodies, he]

theorem traces_foldl_header (c t : Bool) (l : List FS) : ∀ (acc : List Tok) (i : Nat),
    (l.foldl
      (fun s entry =>
        if entry.compact.isEmpty then (s.1, s.2.1 + 1, s.2.2)
        else
          (s.1 ++ (if s.2.2 then styleT c Style.keyStyle [str "    Example traces found:\n"] else [])
              ++ traceEntryToks c t s.2.1 entry,
           s.2.1 + 1, false))
      (acc, i, true)).1
      = acc ++ (if l.all (fun f => f.compact.isEmpty) then []
          else styleT c Style.keyStyle [str "    Example traces found:\n"] ++ traceBodies c t i l) := by
  induction l with
  | nil => intro acc i; simp
  | cons e l ih =>
    intro acc i
    by_cases he : e.compact.isEmpty
    · simp only [List.foldl_cons, if_pos he]
      rw [ih]
      simp [traceBodies, he, List.all_cons]
    · simp only [List.foldl_cons, if_neg he]
      rw [traces_foldl_noheader]
      simp [traceBodies, he, List.all_cons]

theorem tracesToks_eq_spec (c t : Bool) (g : List FS) : tracesToks c t g = tracesSpec c t g := by
  unfold tracesToks tracesSpec
  rw [traces_foldl_header]
  simp

theorem vulnerabilityToks_eq_spec (c t : Bool) (index : Nat) (g : List FS) :
    vulnerabilityToks c t index g = vulnerabilitySpec c t index g := by
  unfold vulnerabilityToks vulnerabilitySpec
  rw [foldl_first_flag_sepJoin]
  rfl

theorem byVulnToks_eq_spec (c t : Bool) (fs : List FS) :
    byVulnToks c t fs = byVulnSpec c t fs := by
  have h1 := foldl_guard_numbered (fun g => isCalled g)
    (fun n g => vulnerabilityToks c t n g) (groupByVuln fs) [] 0
  have h2 := foldl_guard_numbered (fun g => !isCalled g)
    (fun n g => vulnerabilityToks c t n g) (groupByVuln fs) [] 0
  have hcount := length_filter_split (fun g => isCalled g) (groupByVuln fs)
  simp only [byVulnToks, byVulnSpec, calledGroups, unCalledGroups]
  rw [h1, h2]
  simp only [List.nil_append, Nat.zero_add]
  rw [show (groupByVuln fs).length
      - ((groupByVuln fs).filter fun g => isCalled g).length
      = ((groupByVuln fs).filter fun g => !isCalled g).length by omega]

/-! ## The styling overlay never changes wording -/

theorem styleT_false (st : Style) (vs : List Str) : styleT false st vs = printT vs := by
  simp [styleT]

theorem stripToks_flatten (l : List (List Tok)) :
    stripToks l.flatten = (l.map stripToks).flatten := by
  induction l with
  | nil => rfl
  | cons x xs ih => simp [ih]

theorem stripToks_sepJoin (sep : List Tok) (xs : List (List Tok)) :
    stripToks (sepJoin sep xs) = sepJoin (stripToks sep) (xs.map stripToks) := by
  induction xs with
  | nil => rfl
  | cons x ys ih =>
    cases ys with
    | nil => simp [sepJoin]
    | cons y ys' =>
      rw [show sepJoin sep (x :: y :: ys') = x ++ sep ++ sepJoin sep (y :: ys') from rfl]
      simp only [stripToks_append, ih]
      rfl

theorem stripToks_numbered {α : Type} (F G : Nat → α → List Tok)
    (h : ∀ n g, stripToks (F n g) = G n g) (l : List α) :
    ∀ n, stripToks (numbered F n l) = numbered G n l := by
  induction l with
  | nil => intro n; rfl
  | cons g l ih => intro n; simp [numbered, h, ih]

theorem stripToks_traceEntryToks (c t : Bool) (i : Nat) (e : FS) :
    stripToks (traceEntryToks c t i e) = traceEntryToks false t i e := by
  unfold traceEntryToks
  cases t with
  | false => simp
  | true =>
    simp only [Bool.not_true, if_neg Bool.false_ne_true, stripToks_append, stripToks_printT,
      stripToks_flatten, List.map_map]
    congr 2
    refine congrArg List.flatten ?_
    apply List.map_congr_left
    intro fr _
    simp only [Function.comp_apply]
    cases hfr : fr.pos <;> simp [hfr]

theorem stripToks_traceBodies (c t : Bool) (l : List FS) :
    ∀ i, stripToks (traceBodies c t i l) = traceBodies false t i l := by
  induction l with
  | nil => intro i; rfl
  | cons e l ih =>
    intro i
    unfold traceBodies
    by_cases he : e.compact.isEmpty <;>
      simp [he, ih, stripToks_traceEntryToks]

theorem stripToks_tracesToks (c t : Bool) (g : List FS) :
    stripToks (tracesToks c t g) = tracesToks false t g := by
  rw [tracesToks_eq_spec, tracesToks_eq_spec]
  unfold tracesSpec
  split
  · rfl
  · simp [stripToks_traceBodies, styleT_false]

theorem stripToks_platform_foldl (ps : List Str) : ∀ (acc : List Tok) (n : Nat),
    stripToks
      ((ps.foldl (fun s p => (s.1 ++ (if s.2 > 0 then printT [str ", "] else []) ++ printT [p], s.2 + 1))
        (acc, n)).1)
      = (ps.foldl (fun s p => (s.1 ++ (if s.2 > 0 then printT [str ", "] else []) ++ printT [p], s.2 + 1))
        (stripToks acc, n)).1 := by
  induction ps with
  | nil => intro acc n; rfl
  | cons p ps ih =>
    intro acc n
    simp only [List.foldl_cons]
    rw [ih]
    by_cases hn : n > 0 <;> simp [hn]

theorem stripToks_platformsToks (c : Bool) (mod : Str) (f0 : FS) :
    stripToks (platformsToks c mod f0) = platformsToks false mod f0 := by
  simp only [platformsToks]
  split
  · simp only [stripToks_append, stripToks_styleT, styleT_false, stripToks_printT]
    rw [stripToks_platform_foldl]
    rfl
  · rfl

theorem stripToks_modSectionToks (c t : Bool) (m : List FS) :
    stripToks (modSectionToks c t m) = modSectionToks false t m := by
  simp only [modSectionToks]
  split <;> split <;>
    simp [styleT_false, stripToks_platformsToks, stripToks_tracesToks]

theorem stripToks_wrapToks (indent s : Str) (mw : Nat) :
    stripToks (wrapToks indent s mw) = wrapToks indent s mw := by
  unfold wrapToks
  exact stripToks_printT _

theorem stripToks_vulnHeaderToks (c : Bool) (index : Nat) (g : List FS) :
    stripToks (vulnHeaderToks c index g) = vulnHeaderToks false index g := by
  unfold vulnHeaderToks
  simp only [stripToks_append, stripToks_styleT, styleT_false, stripToks_printT,
    stripToks_wrapToks]
  congr 2
  split <;> simp [styleT_false]

theorem stripToks_vulnerabilityToks (c t : Bool) (index : Nat) (g : List FS) :
    stripToks (vulnerabilityToks c t index g) = vulnerabilityToks false t index g := by
  rw [vulnerabilityToks_eq_spec, vulnerabilityToks_eq_spec]
  unfold vulnerabilitySpec
  simp only [stripToks_append, stripToks_vulnHeaderToks, stripToks_printT, stripToks_sepJoin]
  congr 1
  congr 1
  rw [List.map_map]
  refine congrArg (sepJoin (printT [str "\n"])) ?_
  apply List.map_congr_left
  intro m _
  show stripToks (modSectionFrom c t (repFrame m) (m.headD defaultFS) m)
    = modSectionFrom false t (repFrame m) (m.headD defaultFS) m
  show stripToks (modSectionToks c t m) = modSectionToks false t m
  exact stripToks_modSectionToks c t m

theorem stripToks_informationalIntroToks (c : Bool) (n : Nat) :
    stripToks (informationalIntroToks c n) = informationalIntroToks false n := by
  unfold informationalIntroToks
  simp [styleT_false]

theorem stripToks_byVulnToks (c t : Bool) (fs : List FS) :
    stripToks (byVulnToks c t fs) = byVulnToks false t fs := by
  rw [byVulnToks_eq_spec, byVulnToks_eq_spec]
  unfold byVulnSpec
  simp only [stripToks_append,
    stripToks_numbered _ _ (fun n g => stripToks_vulnerabilityToks c t n g)]
  congr 1
  split
  · rfl
  · simp [stripToks_informationalIntroToks,
      stripToks_numbered _ _ (fun n g => stripToks_vulnerabilityToks c t n g)]

theorem stripToks_summaryToks (c : Bool) (fs : List FS) :
    stripToks (summaryToks c fs) = summaryToks false fs := by
  simp only [summaryToks]
  split
  · rfl
  · rcases Nat.eq_zero_or_pos (counters fs).ModulesCalled with h1 | h1
    · by_cases h2 : (counters fs).StdlibCalled = true <;> simp [h1, h2, styleT_false]
    · by_cases h2 : (counters fs).StdlibCalled = true <;>
        simp [h1, h1.ne', h2, styleT_false]

theorem stripToks_reportToks (c t : Bool) (fs : List FS) :
    stripToks (reportToks c t fs) = reportToks false t fs := by
  unfold reportToks
  simp [stripToks_byVulnToks, stripToks_summaryToks]

theorem choose_decide (P : Prop) [Decidable P] (a b : Str) :
    choose (decide P) a b = if P then a else b := by
  by_cases h : P <;> simp [choose, h]

/-! ## Handler, sink and sticky-error lemmas -/

theorem writeTok_of_err {h : Handler} {e : Nat} (he : h.err = some e) (tok : Tok) :
    writeTok h tok = h := by
  simp [writeTok, he]

theorem emit_of_err {h : Handler} {e : Nat} (he : h.err = some e) (ts : List Tok) :
    emit h ts = h := by
  induction ts with
  | nil => rfl
  | cons tok ts ih =>
    show emit (writeTok h tok) ts = h
    rw [writeTok_of_err he]
    exact ih

theorem emit_ok {h : Handler} (he : h.err = none) (hw : h.wouts = []) (ts : List Tok) :
    (emit h ts).err = none ∧ (emit h ts).wouts = [] := by
  induction ts generalizing h with
  | nil => exact ⟨he, hw⟩
  | cons tok ts ih =>
    show (emit (writeTok h tok) ts).err = none ∧ (emit (writeTok h tok) ts).wouts = []
    have hwt : writeTok h tok = { h with out := h.out ++ [tok] } := by
      simp [writeTok, he, hw]
    rw [hwt]
    exact ih he hw

theorem isCalled_fixupFindings (osvs : List OSVEntry) (fs : List FS) :
    isCalled (fixupFindings osvs fs) = isCalled fs := by
  unfold isCalled fixupFindings
  rw [List.any_map]
  rfl

theorem flush_err_ret (hh : Handler) (e : Nat) :
    (hh.flush).1.err = some e → (hh.flush).2 = some (RetErr.writeFailure e) := by
  simp only [Handler.flush]
  generalize (emit { hh with findings := fixupFindings hh.osvs hh.findings }
    (reportToks hh.showColor hh.showTraces (fixupFindings hh.osvs hh.findings))) = E
  obtain ⟨Eo, Ef, Eerr, Ec, Et, Ew, Eout⟩ := E
  cases Eerr with
  | none =>
    intro hres
    by_cases hc : isCalled (fixupFindings hh.osvs hh.findings) <;> simp [hc] at hres
  | some e2 =>
    intro hres
    have h3 : e2 = e := by simpa using hres
    simp [h3]

/-! ## Claim theorems -/

/-- C1.  For every findings list, the rendered vulnerability sections
equal the spec-side layout: the called groups (in first-seen order) form
the primary section numbered sequentially from 1, and the un-called
groups, when any, follow the informational boilerplate numbered
independently from 1; so no un-called group is in the primary section and
no called group is in the informational section. -/
theorem section_layout (c t : Bool) (fs : List FS) :
    byVulnToks c t fs = byVulnSpec c t fs :=
  byVulnToks_eq_spec c t fs

/-- C2.  With no prior write error and a reliable sink, flush returns the
vulnerabilities-found sentinel exactly when some ingested finding carries
a non-empty compact trace (i.e. belongs to a called group), and no error
otherwise; and whenever the flush pipeline ends with a recorded write
error, that error is returned instead of the sentinel. -/
theorem flush_sentinel (h : Handler) :
    (h.err = none → h.wouts = [] →
      (h.flush).2 = if isCalled h.findings then some RetErr.vulnerabilitiesFound else none)
    ∧ ∀ e : Nat, (h.flush).1.err = some e → (h.flush).2 = some (RetErr.writeFailure e) := by
  constructor
  · intro he hw
    have hfix := isCalled_fixupFindings h.osvs h.findings
    simp only [Handler.flush]
    have hok := emit_ok (h := { h with findings := fixupFindings h.osvs h.findings }) he hw
      (reportToks h.showColor h.showTraces (fixupFindings h.osvs h.findings))
    rw [hok.1, ← hfix]
    by_cases hc : isCalled (fixupFindings h.osvs h.findings) <;> simp [hc]
  · exact fun e => flush_err_ret h e

/-- C2 witness: a handler with one called finding returns the sentinel; a
handler whose first write fails with code 7 returns that write error. -/
theorem flush_sentinel_witness :
    (hCalled.flush).2 = some RetErr.vulnerabilitiesFound
      ∧ (hFailing.flush).2 = some (RetErr.writeFailure 7) := by
  constructor
  · have h := (flush_sentinel hCalled).1 rfl rfl
    rw [h]
    decide
  · exact (flush_sentinel hFailing).2 7 (by decide)

/-- C3.  The closing summary wording (codes stripped) is exactly the
claim-side sentence: the fixed no-vulnerabilities sentence when the
called count is zero, otherwise the count sentence with singular/plural
per count, the module clause omitted exactly when the called-module count
is zero, the standard-library clause present exactly when the standard
library is called, and the connective only when both clauses appear. -/
theorem summary_sentence_correct (c : Bool) (fs : List FS) :
    textOnly (summaryToks c fs) = summarySentence (counters fs) := by
  simp only [summaryToks, summarySentence]
  split
  · simp
  · rcases Nat.eq_zero_or_pos (counters fs).ModulesCalled with h1 | h1
    · by_cases h2 : (counters fs).StdlibCalled = true <;>
        simp [h1, h2, choose_decide, List.append_assoc]
    · by_cases h2 : (counters fs).StdlibCalled = true <;>
        simp [h1, h1.ne', h2, choose_decide, List.append_assoc]

/-- C5.  Each vulnerability group renders as the header followed by its
module sub-groups in first-seen order joined by blank lines, where each
sub-group's module, package, found version and fixed version all come
from the last trace frame of the sub-group's first finding (`repFrame`),
that single frame sourcing the whole sub-group. -/
theorem module_representative (c t : Bool) (index : Nat) (g : List FS) :
    vulnerabilityToks c t index g = vulnerabilitySpec c t index g :=
  vulnerabilityToks_eq_spec c t index g

/-- C6 (amended).  The `Fixed in:` line renders `N/A` when the fixed
version is absent and `path@version` otherwise, with the package path
substituted for the standard-library pseudo-module; the `Found in:` line,
however, always renders `path@version` (ending in a bare `@` when the
found version is absent) rather than `N/A`. -/
theorem found_fixed_lines (c t : Bool) (m : List FS) :
    textOnly (modSectionToks c t m)
      = str "  "
        ++ (if (repFrame m).module = goStdModulePath then str "Standard library"
            else str "Module: " ++ (repFrame m).module)
        ++ str "\n    " ++ foundLineText m ++ str "\n    " ++ fixedLineText m ++ str "\n"
        ++ textOnly (platformsToks c (repFrame m).module (m.headD defaultFS))
        ++ textOnly (tracesToks c t m) := by
  simp only [modSectionToks, foundLineText, fixedLineText, repPath, repFrame]
  by_cases h1 : ((m.head?.getD defaultFS).trace.head?.getD defaultFrame).module
      = goStdModulePath <;>
    by_cases h2 : moduleVersionString ((m.head?.getD defaultFS).trace.head?.getD defaultFrame).module
        (m.head?.getD defaultFS).fixedVersion = ([] : Str) <;>
      (try simp only [h1] at h2) <;>
      simp [h1, h2, List.append_assoc]

/-- C6 counterexample to the claim as stated: for a standard-library
sub-group whose found version is absent, the `Found in:` line reads
`    Found in: net/http@`, not the `N/A` the claim requires. -/
theorem found_line_counterexample :
    (linesOf (textOnly (modSectionToks false false
        [⟨str "GO-1", [], [⟨goStdModulePath, str "net/http", str "f", [], none⟩], [],
          emptyOSV⟩]))).get? 1
      = some (str "    Found in: net/http@")
    ∧ str "    Found in: net/http@" ≠ str "    Found in: N/A" := by
  decide

/-- C7.  The report rendered with the color overlay enabled, after
removing all ANSI style and reset codes, is byte-identical to the report
rendered with the overlay disabled; moreover the overlay-disabled report
contains no style codes at all. -/
theorem color_overlay_identity (t : Bool) (fs : List FS) :
    bytesOf (stripToks (reportToks true t fs)) = bytesOf (reportToks false t fs)
      ∧ stripToks (reportToks true t fs) = reportToks false t fs
      ∧ stripToks (reportToks false t fs) = reportToks false t fs := by
  refine ⟨?_, stripToks_reportToks true t fs, stripToks_reportToks false t fs⟩
  rw [stripToks_reportToks]

/-- C8.  Once a write error is recorded it is sticky: every further write
is a no-op that leaves the state (output and recorded error) unchanged,
and a flush whose pipeline ends with a recorded error returns exactly
that error. -/
theorem sticky_write_error (h : Handler) (e : Nat) (he : h.err = some e) :
    (∀ tok : Tok, writeTok h tok = h)
      ∧ (∀ ts : List Tok, emit h ts = h)
      ∧ ∀ hh : Handler, (hh.flush).1.err = some e → (hh.flush).2 = some (RetErr.writeFailure e) :=
  ⟨fun tok => writeTok_of_err he tok, fun ts => emit_of_err he ts,
   fun hh => flush_err_ret hh e⟩

/-- C8 witness: a handler with recorded error 5 ignores a write, and a
flush whose first underlying write fails with 5 returns write failure
5. -/
theorem sticky_write_error_witness :
    writeTok hErrSet (Tok.text (str "x")) = hErrSet
      ∧ (hFailing5.flush).2 = some (RetErr.writeFailure 5) := by
  constructor
  · exact (sticky_write_error hErrSet 5 rfl).1 (Tok.text (str "x"))
  · exact (sticky_write_error hErrSet 5 rfl).2.2 hFailing5 (by decide)

/-- C9.  A submitted finding lacking a module path or with any frame
lacking a symbol is rejected: an error is returned, the accumulated
findings are untouched, and a subsequent valid submission is still
accepted and appended. -/
theorem finding_rejection (h : Handler) (f : GFinding)
    (hbad : (f.trace.headD defaultFrame).module = ([] : Str)
      ∨ ∃ fr ∈ f.trace, fr.symbol = ([] : Str)) :
    (h.finding f).1 = h ∧ (h.finding f).2 ≠ none
      ∧ ∀ g : GFinding, validateFindings g = none →
          ((h.finding f).1.finding g).1.findings = h.findings ++ [newFindingSummary g]
            ∧ ((h.finding f).1.finding g).2 = none := by
  obtain ⟨er, her⟩ : ∃ er, validateFindings f = some er := by
    unfold validateFindings
    by_cases hm : (f.trace.headD defaultFrame).module = ([] : Str)
    · exact ⟨IngestErr.missingModule, if_pos hm⟩
    · rcases hbad with hb | ⟨fr, hfr, hsym⟩
      · exact absurd hb hm
      · have hcond : f.trace.any (fun fr => fr.symbol.isEmpty) = true := by
          rw [List.any_eq_true]
          exact ⟨fr, hfr, by simp [hsym]⟩
        exact ⟨IngestErr.missingSymbol, by rw [if_neg hm, if_pos hcond]⟩
  have h1 : h.finding f = (h, some er) := by
    unfold Handler.finding
    rw [her]
  rw [h1]
  refine ⟨rfl, by simp, ?_⟩
  intro g hg
  have h2 : (h, some er).1.finding g
      = ({ h with findings := h.findings ++ [newFindingSummary g] }, none) := by
    show h.finding g = _
    unfold Handler.finding
    rw [hg]
  rw [h2]
  exact ⟨rfl, rfl⟩

/-- C9 witness: the empty handler rejects a finding with no trace (hence
no module path) without ingesting it, then accepts a valid finding. -/
theorem finding_rejection_witness :
    (hEmpty.finding badFinding).1 = hEmpty
      ∧ ((hEmpty.finding badFinding).1.finding goodFinding).1.findings
          = hEmpty.findings ++ [newFindingSummary goodFinding] := by
  have h := finding_rejection hEmpty badFinding (Or.inl rfl)
  exact ⟨h.1, (h.2.2 goodFinding (by decide)).1⟩

/-- C10.  In the `Example traces found:` list, each rendered trace is
numbered by the finding's 1-based position within the module sub-group;
findings with an empty compact trace are skipped but still consume their
position, and the header appears exactly when some finding of the
sub-group has a non-empty compact trace. -/
theorem trace_numbering (c t : Bool) (g : List FS) :
    tracesToks c t g = tracesSpec c t g :=
  tracesToks_eq_spec c t g

end GovulnText
